import Mathlib

/-!
Verification of the Three Minds consensus engine (`src/council.ts` and its
v2.1 variant).  The TypeScript source is shallowly embedded: pure string
manipulation (vote parsing, marker stripping, history previews) becomes
Lean functions on `List Char`, and the round loop of `Council.run` becomes
a fuel-indexed recursion over an explicit loop state.  The external CLI
invocation (`runClaude` / `runAgent`) is modelled as an oracle
`round → agentIndex → Except String String`, matching the spec's
"AgentInvoker" external-collaborator contract.  Wall-clock timestamps and
the uuid are not modelled (they are opaque strings irrelevant to control
flow); transcript file writing is outside the loop's logic.
-/

namespace ThreeMinds

/-- JavaScript `\s` character class (the whitespace set used by the regex
`/\[CONSENSUS:\s*(YES|NO)\]/i` and by `String.prototype.trim`). -/
def isJsSpace (c : Char) : Bool :=
  c = ' ' || c = '\t' || c = '\n' || c = '\r' ||
  c.toNat = 0x0B || c.toNat = 0x0C ||
  c.toNat = 0xA0 || c.toNat = 0x1680 ||
  (0x2000 ≤ c.toNat && c.toNat ≤ 0x200A) ||
  c.toNat = 0x2028 || c.toNat = 0x2029 || c.toNat = 0x202F ||
  c.toNat = 0x205F || c.toNat = 0x3000 || c.toNat = 0xFEFF

/-- Case-insensitive character comparison, as the regex `i` flag folds the
ASCII letters of the marker pattern. -/
def charCI (a b : Char) : Bool := a.toLower = b.toLower

/-- Match `pat` as a case-insensitive prefix of `cs`; on success return the
remainder of `cs`. -/
def dropCI : List Char → List Char → Option (List Char)
  | [], cs => some cs
  | _ :: _, [] => none
  | p :: ps, c :: cs => if charCI p c then dropCI ps cs else none

/-- Attempt to match the regex `\[CONSENSUS:\s*(YES|NO)\]` (case-insensitive)
at the head of `cs`.  Returns the captured vote (`true` for YES) and the
remainder of the input after the match.  The greedy `\s*` is deterministic
here: after the maximal whitespace run the next character is not whitespace,
so no shorter run can be followed by `Y`/`N`. -/
def matchMarkerAt (cs : List Char) : Option (Bool × List Char) :=
  match dropCI "[consensus:".toList cs with
  | none => none
  | some rest =>
    let afterWs := rest.dropWhile isJsSpace
    match dropCI "yes]".toList afterWs with
    | some rest2 => some (true, rest2)
    | none =>
      match dropCI "no]".toList afterWs with
      | some rest2 => some (false, rest2)
      | none => none

/-- Leftmost match of the marker in a character list (JS `String.match`
without the `g` flag takes the first match). -/
def findMarker : List Char → Option Bool
  | [] => none
  | c :: cs =>
    match matchMarkerAt (c :: cs) with
    | some (v, _) => some v
    | none => findMarker cs

/-- Embeds `parseConsensus` (council.ts lines 52–58): first match of
`/\[CONSENSUS:\s*(YES|NO)\]/i`, `true` iff the token is `YES`,
`false` when there is no match. -/
def parseConsensus (content : String) : Bool :=
  match findMarker content.data with
  | some v => v
  | none => false

/-- Fuel-indexed worker for the global replace
`content.replace(/\[CONSENSUS:\s*(YES|NO)\]/gi, '')`: scan left to right,
deleting each non-overlapping match.  `fuel` bounds the input length so the
recursion is structural (every match consumes at least one character). -/
def stripGo : Nat → List Char → List Char
  | 0, _ => []
  | _ + 1, [] => []
  | fuel + 1, c :: cs =>
    match matchMarkerAt (c :: cs) with
    | some (_, rest) => stripGo fuel rest
    | none => c :: stripGo fuel cs

/-- Remainder of a successful prefix match is shorter than the input by the
pattern length. -/
theorem dropCI_length {p cs r : List Char} (h : dropCI p cs = some r) :
    r.length + p.length = cs.length := by
  induction p generalizing cs with
  | nil => simp [dropCI] at h; simp [h]
  | cons x xs ih =>
    cases cs with
    | nil => simp [dropCI] at h
    | cons c cs' =>
      simp only [dropCI] at h
      split at h
      · have := ih h
        simp [List.length_cons]
        omega
      · exact absurd h (by simp)

/-- Dropping a whitespace prefix never lengthens a list. -/
theorem dropWhile_len_le (p : Char → Bool) :
    ∀ l : List Char, (l.dropWhile p).length ≤ l.length
  | [] => Nat.le_refl _
  | a :: l => by
    simp only [List.dropWhile]
    split
    · exact Nat.le_trans (dropWhile_len_le p l) (Nat.le_succ _)
    · exact Nat.le_refl _

/-- A marker match consumes at least one character. -/
theorem matchMarkerAt_length {cs rest : List Char} {v : Bool}
    (h : matchMarkerAt cs = some (v, rest)) : rest.length < cs.length := by
  have hpat : "[consensus:".toList.length = 11 := by decide
  have hyes : "yes]".toList.length = 4 := by decide
  have hno : "no]".toList.length = 3 := by decide
  unfold matchMarkerAt at h
  split at h
  · exact absurd h (by simp)
  · rename_i r1 h1
    have hl1 := dropCI_length h1
    have hdw : (r1.dropWhile isJsSpace).length ≤ r1.length :=
      dropWhile_len_le _ _
    simp only at h
    split at h
    · rename_i r2 h2
      have hl2 := dropCI_length h2
      simp only [Option.some.injEq, Prod.mk.injEq] at h
      obtain ⟨-, rfl⟩ := h
      omega
    · split at h
      · rename_i r3 h3
        have hl3 := dropCI_length h3
        simp only [Option.some.injEq, Prod.mk.injEq] at h
        obtain ⟨-, rfl⟩ := h
        omega
      · exact absurd h (by simp)

/-- Embeds the global marker strip used by the history builder
(council.ts line 82) and the summary builder (line 302). -/
def stripMarkers (s : String) : String :=
  ⟨stripGo s.data.length s.data⟩

/-- Embeds JavaScript `String.prototype.trim`: drop `\s`-class characters
from both ends. -/
def jsTrim (s : String) : String :=
  ⟨((s.data.dropWhile isJsSpace).reverse.dropWhile isJsSpace).reverse⟩

/-- The `cleanContent` local of `buildAgentPrompt` (council.ts line 82):
strip every vote marker, then trim. -/
def cleanContentOf (content : String) : String :=
  jsTrim (stripMarkers content)

/-- The `preview` local of `buildAgentPrompt` (council.ts line 84):
truncate the cleaned text to 800 characters, appending "..." exactly when
it was longer than 800. -/
def previewOf (content : String) : String :=
  let clean := cleanContentOf content
  if clean.length > 800 then ⟨clean.data.take 800⟩ ++ "..." else clean

/-- The `preview` computation of `generateSummary` (council.ts lines 302–303):
same strip-and-trim, then a 400-character excerpt with an ellipsis if the
cleaned text was longer. -/
def summaryPreviewOf (content : String) : String :=
  let clean := cleanContentOf content
  String.mk (clean.data.take 400) ++ (if clean.length > 400 then "..." else "")

/-- Substring test used only to state that the no-space marker is not one of
the literal single-space forms. -/
def containsSub (hay pat : List Char) : Bool :=
  match hay with
  | [] => pat.isEmpty
  | _ :: t => pat.isPrefixOf hay || containsSub t pat

/-- The two literal marker forms named by the spec. -/
def markerLit : Bool → String
  | true => "[CONSENSUS: YES]"
  | false => "[CONSENSUS: NO]"

/-- Embeds `AgentPersona` (types.ts lines 5–9, with the v2.1 optional
model/baseUrl fields). -/
structure AgentPersona where
  name : String
  emoji : String
  persona : String
  model : Option String := none
  baseUrl : Option String := none
  deriving Repr, DecidableEq, Inhabited

/-- Embeds `CouncilConfig` (types.ts lines 11–16).  `maxRounds` is a JS
number; `Int` keeps non-positive values representable. -/
structure CouncilConfig where
  name : String
  agents : List AgentPersona
  maxRounds : Int
  projectDir : String
  deriving Repr, DecidableEq, Inhabited

/-- Embeds `AgentResponse` (types.ts lines 18–25).  `timestamp` is the
wall-clock ISO string, not modelled (always ""). -/
structure AgentResponse where
  agent : String
  round : Nat
  content : String
  consensus : Bool
  sessionKey : String
  timestamp : String
  deriving Repr, DecidableEq, Inhabited

/-- Embeds the session status union (types.ts line 32). -/
inductive SessionStatus where
  | running
  | consensus
  | maxRounds
  | error
  deriving Repr, DecidableEq, Inhabited

/-- Embeds `CouncilSession` (types.ts lines 27–36); `id` (uuid) and the
timestamps are opaque and not modelled. -/
structure CouncilSession where
  id : String
  task : String
  config : CouncilConfig
  responses : List AgentResponse
  status : SessionStatus
  deriving Repr, DecidableEq, Inhabited

/-- The external `runAgent`/`runClaude` call (the spec's AgentInvoker):
given the round number and the agent's roster index, either the raw
response text or a transport error message (timeout, spawn failure,
non-zero exit). -/
def Oracle : Type := Nat → Nat → Except String String

/-- The record pushed for one agent turn: on success the parsed vote and
the `claude-NAME-rROUND` session key (council.ts lines 201–208); on failure
the `Error: …` text with a `false` vote and empty key (lines 221–228). -/
def responseFor (oracle : Oracle) (round idx : Nat) (a : AgentPersona) : AgentResponse :=
  match oracle round idx with
  | Except.ok content =>
    { agent := a.name, round := round, content := content,
      consensus := parseConsensus content,
      sessionKey := "claude-" ++ a.name ++ "-r" ++ toString round, timestamp := "" }
  | Except.error msg =>
    { agent := a.name, round := round, content := "Error: " ++ msg,
      consensus := false, sessionKey := "", timestamp := "" }

/-- The vote pushed onto `roundVotes` for one agent turn (council.ts
lines 198–199 on success, line 218 on failure). -/
def voteFor (oracle : Oracle) (round idx : Nat) : Bool :=
  match oracle round idx with
  | Except.ok content => parseConsensus content
  | Except.error _ => false

/-- One agent's turn inside the round loop (council.ts lines 189–229):
the try/catch around the invocation, appending one record and one vote in
either branch. -/
def agentTurn (oracle : Oracle) (round idx : Nat) (a : AgentPersona)
    (responses : List AgentResponse) (votes : List Bool) :
    List AgentResponse × List Bool :=
  match oracle round idx with
  | Except.ok content =>
    let consensus := parseConsensus content
    let rec_ : AgentResponse :=
      { agent := a.name, round := round, content := content,
        consensus := consensus,
        sessionKey := "claude-" ++ a.name ++ "-r" ++ toString round,
        timestamp := "" }
    (responses ++ [rec_], votes ++ [consensus])
  | Except.error msg =>
    let rec_ : AgentResponse :=
      { agent := a.name, round := round, content := "Error: " ++ msg,
        consensus := false, sessionKey := "", timestamp := "" }
    (responses ++ [rec_], votes ++ [false])

/-- Ghost record of one invocation: which agent was called in which round,
and the `previousResponses` history window passed to `buildAgentPrompt`
(council.ts lines 180–186). -/
structure Invocation where
  round : Nat
  agentIdx : Nat
  agentName : String
  history : List AgentResponse
  deriving Repr, DecidableEq, Inhabited

/-- The inner `for (const agent of this.config.agents)` loop (council.ts
lines 176–232), threading the session log and this round's votes, and
recording each invocation's history window as ghost data. -/
def runRoundAux (oracle : Oracle) (round : Nat) :
    List AgentPersona → Nat → List AgentResponse → List Bool → List Invocation →
    List AgentResponse × List Bool × List Invocation
  | [], _, responses, votes, invs => (responses, votes, invs)
  | a :: rest, idx, responses, votes, invs =>
    let inv : Invocation :=
      { round := round, agentIdx := idx, agentName := a.name, history := responses }
    let (responses', votes') := agentTurn oracle round idx a responses votes
    runRoundAux oracle round rest (idx + 1) responses' votes' (invs ++ [inv])

/-- The consensus check after a round (council.ts lines 235–236). -/
def allYesCheck (rosterSize : Nat) (votes : List Bool) : Bool :=
  votes.length == rosterSize && votes.all (fun v => v == true)

/-- Loop state: the session's response log and status plus ghost traces of
each executed round's vote list and of every invocation made. -/
structure LoopState where
  responses : List AgentResponse
  status : SessionStatus
  roundVotes : List (List Bool)
  invocations : List Invocation
  deriving Repr, DecidableEq, Inhabited

/-- The outer `for (let round = 1; round <= maxRounds; round++)` loop
(council.ts lines 170–246): run a round, then stop with `consensus` if the
vote list has one `true` per roster member, else continue. -/
def runRounds (oracle : Oracle) (agents : List AgentPersona) :
    Nat → Nat → LoopState → LoopState
  | 0, _, st => st
  | fuel + 1, round, st =>
    let t := runRoundAux oracle round agents 0 st.responses [] st.invocations
    let st' : LoopState :=
      { responses := t.1, status := st.status,
        roundVotes := st.roundVotes ++ [t.2.1], invocations := t.2.2 }
    if allYesCheck agents.length t.2.1 then
      { st' with status := SessionStatus.consensus }
    else
      runRounds oracle agents fuel (round + 1) st'

/-- `MIN_TASK_LENGTH` of the v2.1 engine (unnamed council source, line 350). -/
def MIN_TASK_LENGTH : Nat := 5

/-- The two entry-validation failures of `Council.run` (v2.1 engine,
lines 372–378 of the unnamed council source): falsy task, and trimmed
length below the minimum. -/
inductive ValidationError where
  | emptyTask
  | tooShort
  deriving Repr, DecidableEq, Inhabited

/-- What `Council.run` produces: the session plus the ghost traces. -/
structure RunResult where
  session : CouncilSession
  roundVotes : List (List Bool)
  invocations : List Invocation
  deriving Repr, DecidableEq, Inhabited

/-- Embeds `Council.run`: entry validation (v2.1 engine), then the round
loop starting from an empty log in `running` status, then the
`running → max_rounds` fallback (council.ts lines 248–251).  The loop
executes `maxRounds.toNat` iterations at most, matching
`for (round = 1; round <= maxRounds; …)` also for non-positive bounds. -/
def Council.run (cfg : CouncilConfig) (oracle : Oracle) (task : String) :
    Except ValidationError RunResult :=
  if task = "" then Except.error ValidationError.emptyTask
  else
    let trimmedTask := jsTrim task
    if trimmedTask.length < MIN_TASK_LENGTH then Except.error ValidationError.tooShort
    else
      let st0 : LoopState :=
        { responses := [], status := SessionStatus.running,
          roundVotes := [], invocations := [] }
      let st := runRounds oracle cfg.agents cfg.maxRounds.toNat 1 st0
      let finalStatus :=
        if st.status = SessionStatus.running then SessionStatus.maxRounds else st.status
      Except.ok
        { session :=
            { id := "", task := trimmedTask, config := cfg,
              responses := st.responses, status := finalStatus },
          roundVotes := st.roundVotes, invocations := st.invocations }

/-- Records appended during one round by the agents from roster position
`idx` on. -/
def roundRecordsFrom (oracle : Oracle) (round : Nat) :
    Nat → List AgentPersona → List AgentResponse
  | _, [] => []
  | idx, a :: rest => responseFor oracle round idx a :: roundRecordsFrom oracle round (idx + 1) rest

/-- Votes appended during one round by the agents from roster position
`idx` on. -/
def roundVotesFrom (oracle : Oracle) (round : Nat) :
    Nat → List AgentPersona → List Bool
  | _, [] => []
  | idx, _ :: rest => voteFor oracle round idx :: roundVotesFrom oracle round (idx + 1) rest

/-- Invocations made during one round, each carrying the history window it
was shown: the log as of the start of the round plus the records of the
agents that already acted this round. -/
def roundInvsFrom (oracle : Oracle) (round : Nat) :
    Nat → List AgentResponse → List AgentPersona → List Invocation
  | _, _, [] => []
  | idx, hist, a :: rest =>
    { round := round, agentIdx := idx, agentName := a.name, history := hist } ::
      roundInvsFrom oracle round (idx + 1) (hist ++ [responseFor oracle round idx a]) rest

/-- The full record log produced by `n` consecutive rounds starting at
round `r`. -/
def logFrom (oracle : Oracle) (agents : List AgentPersona) :
    Nat → Nat → List AgentResponse
  | _, 0 => []
  | r, n + 1 => roundRecordsFrom oracle r 0 agents ++ logFrom oracle agents (r + 1) n

/-- The per-round vote lists produced by `n` consecutive rounds starting at
round `r`. -/
def votesLog (oracle : Oracle) (agents : List AgentPersona) :
    Nat → Nat → List (List Bool)
  | _, 0 => []
  | r, n + 1 => roundVotesFrom oracle r 0 agents :: votesLog oracle agents (r + 1) n

/-- The (round, agent-name) key of a record, determining its chronological
position. -/
def keyOf (x : AgentResponse) : Nat × String := (x.round, x.agent)

/-- The expected key sequence of a complete `n`-round log starting at round
`r`: rounds in ascending order, roster order within each round. -/
def expectedKeys (agents : List AgentPersona) : Nat → Nat → List (Nat × String)
  | _, 0 => []
  | r, n + 1 => agents.map (fun a => (r, a.name)) ++ expectedKeys agents (r + 1) n

theorem agentTurn_eq (oracle : Oracle) (round idx : Nat) (a : AgentPersona)
    (responses : List AgentResponse) (votes : List Bool) :
    agentTurn oracle round idx a responses votes =
      (responses ++ [responseFor oracle round idx a], votes ++ [voteFor oracle round idx]) := by
  unfold agentTurn responseFor voteFor
  cases oracle round idx <;> rfl

theorem runRoundAux_eq (oracle : Oracle) (round : Nat) :
    ∀ (agents : List AgentPersona) (idx : Nat) (responses : List AgentResponse)
      (votes : List Bool) (invs : List Invocation),
    runRoundAux oracle round agents idx responses votes invs =
      (responses ++ roundRecordsFrom oracle round idx agents,
       votes ++ roundVotesFrom oracle round idx agents,
       invs ++ roundInvsFrom oracle round idx responses agents) := by
  intro agents
  induction agents with
  | nil => intro idx responses votes invs; simp [runRoundAux, roundRecordsFrom, roundVotesFrom, roundInvsFrom]
  | cons a rest ih =>
    intro idx responses votes invs
    simp only [runRoundAux, agentTurn_eq, roundRecordsFrom, roundVotesFrom, roundInvsFrom, ih]
    simp

theorem roundRecordsFrom_keys (oracle : Oracle) (round : Nat) :
    ∀ (agents : List AgentPersona) (idx : Nat),
    (roundRecordsFrom oracle round idx agents).map keyOf =
      agents.map (fun a => (round, a.name)) := by
  intro agents
  induction agents with
  | nil => intro idx; rfl
  | cons a rest ih =>
    intro idx
    simp only [roundRecordsFrom, List.map_cons, ih]
    have : keyOf (responseFor oracle round idx a) = (round, a.name) := by
      unfold responseFor keyOf
      cases oracle round idx <;> rfl
    rw [this]

theorem roundVotesFrom_length (oracle : Oracle) (round : Nat) :
    ∀ (agents : List AgentPersona) (idx : Nat),
    (roundVotesFrom oracle round idx agents).length = agents.length := by
  intro agents
  induction agents with
  | nil => intro idx; rfl
  | cons a rest ih => intro idx; simp [roundVotesFrom, ih]

theorem roundVotesFrom_get (oracle : Oracle) (round : Nat) :
    ∀ (agents : List AgentPersona) (idx k : Nat) (a : AgentPersona),
    agents[k]? = some a →
    (roundVotesFrom oracle round idx agents)[k]? = some (voteFor oracle round (idx + k)) := by
  intro agents
  induction agents with
  | nil => intro idx k a h; simp at h
  | cons b rest ih =>
    intro idx k a h
    cases k with
    | zero => simp [roundVotesFrom]
    | succ k' =>
      simp only [List.getElem?_cons_succ] at h
      have := ih (idx + 1) k' a h
      simp only [roundVotesFrom, List.getElem?_cons_succ]
      rw [this]
      have harith : idx + 1 + k' = idx + (k' + 1) := by omega
      rw [harith]

theorem responseFor_mem_roundRecordsFrom (oracle : Oracle) (round : Nat) :
    ∀ (agents : List AgentPersona) (idx k : Nat) (a : AgentPersona),
    agents[k]? = some a →
    responseFor oracle round (idx + k) a ∈ roundRecordsFrom oracle round idx agents := by
  intro agents
  induction agents with
  | nil => intro idx k a h; simp at h
  | cons b rest ih =>
    intro idx k a h
    cases k with
    | zero =>
      simp only [List.getElem?_cons_zero, Option.some.injEq] at h
      subst h
      simp [roundRecordsFrom]
    | succ k' =>
      simp only [List.getElem?_cons_succ] at h
      have := ih (idx + 1) k' a h
      have harith : idx + (k' + 1) = idx + 1 + k' := by omega
      rw [harith]
      simp [roundRecordsFrom]
      right
      exact this

theorem roundInvsFrom_mem (oracle : Oracle) (round : Nat) :
    ∀ (agents : List AgentPersona) (idx : Nat) (hist : List AgentResponse)
      (inv : Invocation),
    inv ∈ roundInvsFrom oracle round idx hist agents →
    ∃ k a, agents[k]? = some a ∧ inv.round = round ∧ inv.agentIdx = idx + k ∧
      inv.agentName = a.name ∧
      inv.history = hist ++ roundRecordsFrom oracle round idx (agents.take k) := by
  intro agents
  induction agents with
  | nil => intro idx hist inv h; simp [roundInvsFrom] at h
  | cons b rest ih =>
    intro idx hist inv h
    simp only [roundInvsFrom, List.mem_cons] at h
    rcases h with h | h
    · refine ⟨0, b, by simp, ?_, ?_, ?_, ?_⟩ <;> subst h <;> simp [roundRecordsFrom]
    · obtain ⟨k', a, hk, hr, hi, hn, hh⟩ := ih (idx + 1) (hist ++ [responseFor oracle round idx b]) inv h
      refine ⟨k' + 1, a, by simpa using hk, hr, by omega, hn, ?_⟩
      rw [hh]
      simp [roundRecordsFrom, List.append_assoc]

theorem logFrom_keys (oracle : Oracle) (agents : List AgentPersona) :
    ∀ (n r : Nat),
    (logFrom oracle agents r n).map keyOf = expectedKeys agents r n := by
  intro n
  induction n with
  | zero => intro r; rfl
  | succ n' ih =>
    intro r
    simp only [logFrom, expectedKeys, List.map_append, ih, roundRecordsFrom_keys]

theorem votesLog_length (oracle : Oracle) (agents : List AgentPersona) :
    ∀ (n r : Nat), (votesLog oracle agents r n).length = n := by
  intro n
  induction n with
  | zero => intro r; rfl
  | succ n' ih => intro r; simp [votesLog, ih]

theorem votesLog_get (oracle : Oracle) (agents : List AgentPersona) :
    ∀ (n r i : Nat), i < n →
    (votesLog oracle agents r n)[i]? = some (roundVotesFrom oracle (r + i) 0 agents) := by
  intro n
  induction n with
  | zero => intro r i h; omega
  | succ n' ih =>
    intro r i h
    cases i with
    | zero => simp [votesLog]
    | succ i' =>
      simp only [votesLog, List.getElem?_cons_succ]
      rw [ih (r + 1) i' (by omega)]
      have : r + 1 + i' = r + (i' + 1) := by omega
      rw [this]

theorem votesLog_mem (oracle : Oracle) (agents : List AgentPersona) :
    ∀ (n r : Nat) (w : List Bool), w ∈ votesLog oracle agents r n →
    ∃ i, i < n ∧ w = roundVotesFrom oracle (r + i) 0 agents := by
  intro n
  induction n with
  | zero => intro r w h; simp [votesLog] at h
  | succ n' ih =>
    intro r w h
    simp only [votesLog, List.mem_cons] at h
    rcases h with h | h
    · exact ⟨0, by omega, by simpa using h⟩
    · obtain ⟨i, hi, hw⟩ := ih (r + 1) w h
      exact ⟨i + 1, by omega, by rw [hw]; congr 1; omega⟩

theorem votesLog_snoc (oracle : Oracle) (agents : List AgentPersona) :
    ∀ (m r : Nat),
    votesLog oracle agents r (m + 1) =
      votesLog oracle agents r m ++ [roundVotesFrom oracle (r + m) 0 agents] := by
  intro m
  induction m with
  | zero => intro r; simp [votesLog]
  | succ m' ih =>
    intro r
    have := ih (r + 1)
    simp only [votesLog] at this ⊢
    rw [this]
    have : r + 1 + m' = r + (m' + 1) := by omega
    rw [this]
    simp

theorem mem_logFrom_of_mem_round (oracle : Oracle) (agents : List AgentPersona)
    (x : AgentResponse) :
    ∀ (n r R : Nat), r ≤ R → R < r + n →
    x ∈ roundRecordsFrom oracle R 0 agents →
    x ∈ logFrom oracle agents r n := by
  intro n
  induction n with
  | zero => intro r R h1 h2; omega
  | succ n' ih =>
    intro r R h1 h2 hx
    simp only [logFrom, List.mem_append]
    rcases Nat.eq_or_lt_of_le h1 with heq | hlt
    · subst heq; exact Or.inl hx
    · exact Or.inr (ih (r + 1) R hlt (by omega) hx)

/-- Master characterization of the round loop: starting in `running` state
it executes some number `n ≤ fuel` of rounds, appending exactly the
per-round records and vote lists; every invocation it makes sees exactly
the log accumulated before it; and it ends in `consensus` exactly when the
last executed round is the first all-yes round, staying `running` (to be
mapped to `max_rounds`) when the fuel runs out with no all-yes round. -/
theorem runRounds_main (oracle : Oracle) (agents : List AgentPersona) :
    ∀ (fuel r : Nat) (st : LoopState), st.status = SessionStatus.running →
    ∃ n, n ≤ fuel ∧
      (runRounds oracle agents fuel r st).responses =
        st.responses ++ logFrom oracle agents r n ∧
      (runRounds oracle agents fuel r st).roundVotes =
        st.roundVotes ++ votesLog oracle agents r n ∧
      (∀ inv ∈ (runRounds oracle agents fuel r st).invocations,
        inv ∈ st.invocations ∨
        ∃ i k a, i < n ∧ agents[k]? = some a ∧ inv.round = r + i ∧
          inv.agentIdx = k ∧ inv.agentName = a.name ∧
          inv.history = (st.responses ++ logFrom oracle agents r i) ++
            roundRecordsFrom oracle (r + i) 0 (agents.take k)) ∧
      (((runRounds oracle agents fuel r st).status = SessionStatus.consensus ∧
          ∃ m, n = m + 1 ∧
            allYesCheck agents.length (roundVotesFrom oracle (r + m) 0 agents) = true ∧
            ∀ i, i < m →
              allYesCheck agents.length (roundVotesFrom oracle (r + i) 0 agents) = false) ∨
       ((runRounds oracle agents fuel r st).status = SessionStatus.running ∧
          n = fuel ∧
          ∀ i, i < n →
            allYesCheck agents.length (roundVotesFrom oracle (r + i) 0 agents) = false)) := by
  intro fuel
  induction fuel with
  | zero =>
    intro r st hst
    refine ⟨0, Nat.le_refl 0, by simp [runRounds, logFrom],
      by simp [runRounds, votesLog], ?_, Or.inr ⟨hst, rfl, ?_⟩⟩
    · intro inv hinv
      exact Or.inl hinv
    · intro i hi
      exact absurd hi (Nat.not_lt_zero i)
  | succ fuel ih =>
    intro r st hst
    have hP := runRoundAux_eq oracle r agents 0 st.responses [] st.invocations
    by_cases hYes : allYesCheck agents.length (roundVotesFrom oracle r 0 agents) = true
    · have hres : runRounds oracle agents (fuel + 1) r st =
          { responses := st.responses ++ roundRecordsFrom oracle r 0 agents,
            status := SessionStatus.consensus,
            roundVotes := st.roundVotes ++ [roundVotesFrom oracle r 0 agents],
            invocations := st.invocations ++ roundInvsFrom oracle r 0 st.responses agents } := by
        simp only [runRounds, hP]
        simp [hYes]
      refine ⟨1, by omega, ?_, ?_, ?_, Or.inl ⟨by rw [hres], 0, rfl, by simpa using hYes, ?_⟩⟩
      · rw [hres]; simp [logFrom]
      · rw [hres]; simp [votesLog]
      · rw [hres]
        intro inv hinv
        simp only [List.mem_append] at hinv
        rcases hinv with h | h
        · exact Or.inl h
        · obtain ⟨k, a, hk, hr2, hi2, hn2, hh2⟩ :=
            roundInvsFrom_mem oracle r agents 0 st.responses inv h
          exact Or.inr ⟨0, k, a, by omega, hk, by simpa using hr2, by simpa using hi2,
            hn2, by simpa [logFrom] using hh2⟩
      · intro i hi
        exact absurd hi (Nat.not_lt_zero i)
    · have hV : allYesCheck agents.length (roundVotesFrom oracle r 0 agents) = false :=
        Bool.not_eq_true _ ▸ eq_false_of_ne_true hYes
      have hres : runRounds oracle agents (fuel + 1) r st =
          runRounds oracle agents fuel (r + 1)
            { responses := st.responses ++ roundRecordsFrom oracle r 0 agents,
              status := st.status,
              roundVotes := st.roundVotes ++ [roundVotesFrom oracle r 0 agents],
              invocations := st.invocations ++ roundInvsFrom oracle r 0 st.responses agents } := by
        simp only [runRounds, hP]
        simp [hYes]
      obtain ⟨n', hn'le, hresp, hvotes, hinvs, hstat⟩ :=
        ih (r + 1)
          { responses := st.responses ++ roundRecordsFrom oracle r 0 agents,
            status := st.status,
            roundVotes := st.roundVotes ++ [roundVotesFrom oracle r 0 agents],
            invocations := st.invocations ++ roundInvsFrom oracle r 0 st.responses agents }
          hst
      refine ⟨n' + 1, by omega, ?_, ?_, ?_, ?_⟩
      · rw [hres, hresp]
        simp [logFrom, List.append_assoc]
      · rw [hres, hvotes]
        simp [votesLog, List.append_assoc]
      · rw [hres]
        intro inv hinv
        rcases hinvs inv hinv with h | h
        · simp only [List.mem_append] at h
          rcases h with h0 | h0
          · exact Or.inl h0
          · obtain ⟨k, a, hk, hr2, hi2, hn2, hh2⟩ :=
              roundInvsFrom_mem oracle r agents 0 st.responses inv h0
            exact Or.inr ⟨0, k, a, by omega, hk, by simpa using hr2, by simpa using hi2,
              hn2, by simpa [logFrom] using hh2⟩
        · obtain ⟨i, k, a, hilt, hk, hr2, hi2, hn2, hh2⟩ := h
          refine Or.inr ⟨i + 1, k, a, by omega, hk, by rw [hr2]; omega, hi2, hn2, ?_⟩
          rw [hh2]
          have e1 : r + 1 + i = r + (i + 1) := by omega
          rw [e1]
          simp [logFrom, List.append_assoc]
      · rcases hstat with ⟨hcons, m, hm, hyes, hprev⟩ | ⟨hrun, hn, hall⟩
        · left
          refine ⟨by rw [hres]; exact hcons, m + 1, by omega, ?_, ?_⟩
          · have e2 : r + (m + 1) = r + 1 + m := by omega
            rw [e2]; exact hyes
          · intro i hi
            cases i with
            | zero => simpa using hV
            | succ j =>
              have e3 : r + (j + 1) = r + 1 + j := by omega
              rw [e3]; exact hprev j (by omega)
        · right
          refine ⟨by rw [hres]; exact hrun, by omega, ?_⟩
          intro i hi
          cases i with
          | zero => simpa using hV
          | succ j =>
            have e4 : r + (j + 1) = r + 1 + j := by omega
            rw [e4]; exact hall j (by omega)

/-- Characterization of every successful `Council.run`: some number
`n ≤ maxRounds` of rounds executed, responses and vote trace are exactly
the per-round data, invocations saw exactly the preceding log, and the
final status is `consensus` (first all-yes round is the last executed) or
`max_rounds` (fuel exhausted, no all-yes round). -/
theorem run_ok_spec (cfg : CouncilConfig) (oracle : Oracle) (task : String)
    (res : RunResult) (h : Council.run cfg oracle task = Except.ok res) :
    ∃ n, n ≤ cfg.maxRounds.toNat ∧
      res.session.task = jsTrim task ∧
      res.session.config = cfg ∧
      res.session.responses = logFrom oracle cfg.agents 1 n ∧
      res.roundVotes = votesLog oracle cfg.agents 1 n ∧
      (∀ inv ∈ res.invocations,
        ∃ i k a, i < n ∧ cfg.agents[k]? = some a ∧ inv.round = 1 + i ∧
          inv.agentIdx = k ∧ inv.agentName = a.name ∧
          inv.history = logFrom oracle cfg.agents 1 i ++
            roundRecordsFrom oracle (1 + i) 0 (cfg.agents.take k)) ∧
      ((res.session.status = SessionStatus.consensus ∧
          ∃ m, n = m + 1 ∧
            allYesCheck cfg.agents.length (roundVotesFrom oracle (1 + m) 0 cfg.agents) = true ∧
            ∀ i, i < m →
              allYesCheck cfg.agents.length (roundVotesFrom oracle (1 + i) 0 cfg.agents) = false) ∨
       (res.session.status = SessionStatus.maxRounds ∧ n = cfg.maxRounds.toNat ∧
          ∀ i, i < n →
            allYesCheck cfg.agents.length (roundVotesFrom oracle (1 + i) 0 cfg.agents) = false)) := by
  obtain ⟨n, hle, hresp, hvotes, hinvs, hstat⟩ :=
    runRounds_main oracle cfg.agents cfg.maxRounds.toNat 1
      { responses := [], status := SessionStatus.running,
        roundVotes := [], invocations := [] } rfl
  simp only [Council.run] at h
  split_ifs at h with h1 h2 h3
  · simp only [Except.ok.injEq] at h
    subst h
    refine ⟨n, hle, rfl, rfl, by simpa using hresp, by simpa using hvotes, ?_, ?_⟩
    · intro inv hinv
      rcases hinvs inv hinv with h0 | h0
      · exact absurd h0 (by simp)
      · obtain ⟨i, k, a, hilt, hk, hr2, hi2, hn2, hh2⟩ := h0
        exact ⟨i, k, a, hilt, hk, hr2, hi2, hn2, by simpa using hh2⟩
    · rcases hstat with ⟨hcons, _⟩ | ⟨hrun, hn, hall⟩
      · rw [h3] at hcons
        exact absurd hcons (by simp)
      · exact Or.inr ⟨rfl, hn, hall⟩
  · simp only [Except.ok.injEq] at h
    subst h
    refine ⟨n, hle, rfl, rfl, by simpa using hresp, by simpa using hvotes, ?_, ?_⟩
    · intro inv hinv
      rcases hinvs inv hinv with h0 | h0
      · exact absurd h0 (by simp)
      · obtain ⟨i, k, a, hilt, hk, hr2, hi2, hn2, hh2⟩ := h0
        exact ⟨i, k, a, hilt, hk, hr2, hi2, hn2, by simpa using hh2⟩
    · rcases hstat with ⟨hcons, m, hm, hyes, hprev⟩ | ⟨hrun, _⟩
      · exact Or.inl ⟨hcons, m, hm, hyes, hprev⟩
      · exact absurd hrun h3

theorem allYes_true_iff (roster : Nat) (w : List Bool)
    (h : allYesCheck roster w = true) : w.length = roster ∧ ∀ v ∈ w, v = true := by
  simp only [allYesCheck, Bool.and_eq_true, beq_iff_eq, List.all_eq_true] at h
  exact ⟨h.1, h.2⟩

theorem allYes_false (roster : Nat) (w : List Bool)
    (h : allYesCheck roster w = false) (hlen : w.length = roster) :
    ¬(∀ v ∈ w, v = true) := by
  intro hall
  have : allYesCheck roster w = true := by
    simp only [allYesCheck, Bool.and_eq_true, beq_iff_eq, List.all_eq_true]
    exact ⟨hlen, hall⟩
  rw [this] at h
  exact absurd h (by simp)

theorem expectedKeys_countP (agents : List AgentPersona) (r : Nat) :
    ∀ (n r0 : Nat), ((expectedKeys agents r0 n).countP (fun p => p.1 == r)) =
      if r0 ≤ r ∧ r < r0 + n then agents.length else 0 := by
  intro n
  induction n with
  | zero =>
    intro r0
    have hc : ¬(r0 ≤ r ∧ r < r0 + 0) := by omega
    simp only [expectedKeys, List.countP_nil]
    rw [if_neg (by omega)]
  | succ n' ih =>
    intro r0
    simp only [expectedKeys, List.countP_append, ih (r0 + 1)]
    have hblock : (agents.map (fun a => (r0, a.name))).countP (fun p => p.1 == r) =
        if r0 = r then agents.length else 0 := by
      rw [List.countP_map]
      by_cases h : r0 = r
      · simp [h, Function.comp]
      · simp [h, Function.comp]
    rw [hblock]
    split_ifs <;> omega

theorem log_filter_round (oracle : Oracle) (agents : List AgentPersona)
    (n R : Nat) (h1 : 1 ≤ R) (h2 : R ≤ n) :
    ((logFrom oracle agents 1 n).filter (fun x => x.round == R)).length =
      agents.length := by
  rw [← List.countP_eq_length_filter]
  have hmap : (logFrom oracle agents 1 n).countP (fun x => x.round == R) =
      ((logFrom oracle agents 1 n).map keyOf).countP (fun p => p.1 == R) := by
    rw [List.countP_map]
    rfl
  rw [hmap, logFrom_keys, expectedKeys_countP agents R n 1]
  have hc : 1 ≤ R ∧ R < 1 + n := ⟨h1, by omega⟩
  simp [hc]

theorem dropCI_append {p cs r : List Char} (h : dropCI p cs = some r)
    (post : List Char) : dropCI p (cs ++ post) = some (r ++ post) := by
  induction p generalizing cs with
  | nil =>
    simp only [dropCI, Option.some.injEq] at h
    subst h
    simp [dropCI]
  | cons x xs ih =>
    cases cs with
    | nil => simp [dropCI] at h
    | cons c cs' =>
      simp only [dropCI, List.cons_append] at h ⊢
      by_cases hc : charCI x c = true
      · simp only [hc, if_true] at h ⊢
        exact ih h
      · simp only [hc, if_false] at h
        exact absurd h (by simp)

theorem matchMarkerAt_marker (v : Bool) (post : List Char) :
    matchMarkerAt ((markerLit v).data ++ post) = some (v, post) := by
  cases v <;> rfl

theorem matchMarkerAt_cons_ne {c : Char} {cs : List Char} (h : c.toLower ≠ '[') :
    matchMarkerAt (c :: cs) = none := by
  unfold matchMarkerAt
  have hd : dropCI "[consensus:".toList (c :: cs) = none := by
    rw [show "[consensus:".toList = '[' :: "consensus:".toList from rfl]
    have hci : charCI '[' c = false := by
      unfold charCI
      rw [show Char.toLower '[' = '[' from rfl]
      exact decide_eq_false (fun he => h he.symm)
    simp [dropCI, hci]
  rw [hd]

theorem findMarker_cons_match {c : Char} {cs rest : List Char} {v : Bool}
    (h : matchMarkerAt (c :: cs) = some (v, rest)) :
    findMarker (c :: cs) = some v := by
  simp only [findMarker, h]

theorem findMarker_cons_none {c : Char} {cs : List Char}
    (h : matchMarkerAt (c :: cs) = none) :
    findMarker (c :: cs) = findMarker cs := by
  simp only [findMarker, h]

/-- First-match semantics: a marker preceded only by text containing no
`[` (case-insensitively) is the match that decides the vote, whatever
follows. -/
theorem findMarker_append (v : Bool) (post : List Char) :
    ∀ pre : List Char, (∀ c ∈ pre, c.toLower ≠ '[') →
    findMarker (pre ++ ((markerLit v).data ++ post)) = some v := by
  intro pre
  induction pre with
  | nil =>
    intro _
    rw [List.nil_append]
    cases v
    · exact findMarker_cons_match (matchMarkerAt_marker false post)
    · exact findMarker_cons_match (matchMarkerAt_marker true post)
  | cons c pre' ih =>
    intro h
    have hc : c.toLower ≠ '[' := h c (List.mem_cons_self _ _)
    have hrest : ∀ x ∈ pre', x.toLower ≠ '[' :=
      fun x hx => h x (List.mem_cons_of_mem _ hx)
    rw [List.cons_append, findMarker_cons_none (matchMarkerAt_cons_ne hc)]
    exact ih hrest

/-- Claim C1: for every session returned by `Council.run` with status
`consensus`, the final executed round's vote list has exactly one entry per
roster agent, all `true`; the loop stops there (it is the last element of
the per-round vote trace, which never exceeds `maxRounds`), and no earlier
round had all votes `true`. -/
theorem C1_consensus_final_round (cfg : CouncilConfig) (oracle : Oracle)
    (task : String) (res : RunResult)
    (hrun : Council.run cfg oracle task = Except.ok res)
    (hst : res.session.status = SessionStatus.consensus) :
    ∃ pre last, res.roundVotes = pre ++ [last] ∧
      last.length = cfg.agents.length ∧ (∀ v ∈ last, v = true) ∧
      res.roundVotes.length ≤ cfg.maxRounds.toNat ∧
      ∀ w ∈ pre, w.length = cfg.agents.length ∧ ¬(∀ v ∈ w, v = true) := by
  obtain ⟨n, hle, -, -, -, hvotes, -, hstat⟩ := run_ok_spec cfg oracle task res hrun
  rcases hstat with ⟨-, m, hm, hyes, hprev⟩ | ⟨hmr, -, -⟩
  · subst hm
    refine ⟨votesLog oracle cfg.agents 1 m,
            roundVotesFrom oracle (1 + m) 0 cfg.agents, ?_, ?_, ?_, ?_, ?_⟩
    · rw [hvotes, votesLog_snoc]
    · exact (allYes_true_iff _ _ hyes).1
    · exact (allYes_true_iff _ _ hyes).2
    · rw [hvotes, votesLog_length oracle cfg.agents (m + 1) 1]
      exact hle
    · intro w hw
      obtain ⟨i, hi, hwi⟩ := votesLog_mem oracle cfg.agents m 1 w hw
      subst hwi
      have hlen := roundVotesFrom_length oracle (1 + i) cfg.agents 0
      exact ⟨hlen, allYes_false _ _ (hprev i hi) hlen⟩
  · rw [hst] at hmr
    exact absurd hmr (by simp)

def wAgentA : AgentPersona := { name := "A", emoji := "a", persona := "p" }

def wCfgYes : CouncilConfig :=
  { name := "demo", agents := [wAgentA], maxRounds := 3, projectDir := "." }

def wOracleYes : Oracle := fun _ _ => Except.ok "done [CONSENSUS: YES]"

def wResYes : RunResult :=
  match Council.run wCfgYes wOracleYes "hello there" with
  | Except.ok r => r
  | Except.error _ => default

/-- Witness for C1 at a concrete consensus run. -/
theorem C1_consensus_final_round_wit :
    ∃ pre last, wResYes.roundVotes = pre ++ [last] ∧
      last.length = wCfgYes.agents.length ∧ (∀ v ∈ last, v = true) ∧
      wResYes.roundVotes.length ≤ wCfgYes.maxRounds.toNat ∧
      ∀ w ∈ pre, w.length = wCfgYes.agents.length ∧ ¬(∀ v ∈ w, v = true) :=
  C1_consensus_final_round wCfgYes wOracleYes "hello there" wResYes (by rfl) (by rfl)

/-- Claim C2: vote extraction takes the first marker match
(case-insensitively), `true` iff its token is YES; no match means `false`,
never an error. -/
theorem C2_parse_consensus :
    (∀ (pre post : String) (v : Bool), (∀ c ∈ pre.data, c.toLower ≠ '[') →
      parseConsensus (pre ++ markerLit v ++ post) = v) ∧
    (∀ s : String, findMarker s.data = none → parseConsensus s = false) ∧
    parseConsensus "abc [CONSENSUS: YES] xyz [CONSENSUS: NO]" = true ∧
    parseConsensus "abc [consensus: no] then [CONSENSUS: YES]" = false ∧
    parseConsensus "totally marker free" = false := by
  refine ⟨?_, ?_, by decide, by decide, by decide⟩
  · intro pre post v h
    have hdata : (pre ++ markerLit v ++ post).data =
        pre.data ++ ((markerLit v).data ++ post.data) := by
      simp [String.data_append, List.append_assoc]
    unfold parseConsensus
    rw [hdata, findMarker_append v post.data pre.data h]
  · intro s hnone
    unfold parseConsensus
    rw [hnone]

/-- Witness for C2: a concrete YES marker after bracket-free text. -/
theorem C2_parse_consensus_wit :
    parseConsensus ("we decide " ++ markerLit true ++ " end") = true :=
  C2_parse_consensus.1 "we decide " " end" true (by decide)

/-- Claim C3: a failed invocation (oracle error) never aborts the loop: its
record is in the log with vote `false` and the error description as text,
the round still has a full roster of records, and the round's vote list has
`false` at that agent's position. -/
theorem C3_agent_failure_swallowed (cfg : CouncilConfig) (oracle : Oracle)
    (task : String) (res : RunResult) (R k : Nat) (msg : String) (a : AgentPersona)
    (hrun : Council.run cfg oracle task = Except.ok res)
    (ha : cfg.agents[k]? = some a)
    (herr : oracle R k = Except.error msg)
    (hR1 : 1 ≤ R) (hRn : R ≤ res.roundVotes.length) :
    ({ agent := a.name, round := R, content := "Error: " ++ msg,
       consensus := false, sessionKey := "", timestamp := "" } : AgentResponse)
        ∈ res.session.responses ∧
    (res.session.responses.filter (fun x => x.round == R)).length =
      cfg.agents.length ∧
    ∃ w, res.roundVotes[R - 1]? = some w ∧ w[k]? = some false := by
  obtain ⟨n, hle, -, -, hresp, hvotes, -, -⟩ := run_ok_spec cfg oracle task res hrun
  have hn : res.roundVotes.length = n := by
    rw [hvotes]; exact votesLog_length oracle cfg.agents n 1
  refine ⟨?_, ?_, ?_⟩
  · have hrec : responseFor oracle R k a =
        { agent := a.name, round := R, content := "Error: " ++ msg,
          consensus := false, sessionKey := "", timestamp := "" } := by
      unfold responseFor
      rw [herr]
    rw [hresp, ← hrec]
    have hmem := responseFor_mem_roundRecordsFrom oracle R cfg.agents 0 k a ha
    rw [Nat.zero_add] at hmem
    exact mem_logFrom_of_mem_round oracle cfg.agents _ n 1 R hR1 (by omega) hmem
  · rw [hresp]
    exact log_filter_round oracle cfg.agents n R hR1 (by omega)
  · refine ⟨roundVotesFrom oracle R 0 cfg.agents, ?_, ?_⟩
    · rw [hvotes]
      have hg := votesLog_get oracle cfg.agents n 1 (R - 1) (by omega)
      have e : 1 + (R - 1) = R := by omega
      rw [e] at hg
      exact hg
    · have hv := roundVotesFrom_get oracle R cfg.agents 0 k a ha
      rw [Nat.zero_add] at hv
      rw [hv]
      show some (voteFor oracle R k) = some false
      unfold voteFor
      rw [herr]

def wOracleErr : Oracle := fun _ _ => Except.error "boom"

def wCfgOne : CouncilConfig :=
  { name := "demo", agents := [wAgentA], maxRounds := 1, projectDir := "." }

def wResErr : RunResult :=
  match Council.run wCfgOne wOracleErr "hello there" with
  | Except.ok r => r
  | Except.error _ => default

/-- Witness for C3 at a concrete run whose only invocation fails. -/
theorem C3_agent_failure_swallowed_wit :
    ({ agent := wAgentA.name, round := 1, content := "Error: " ++ "boom",
       consensus := false, sessionKey := "", timestamp := "" } : AgentResponse)
        ∈ wResErr.session.responses ∧
    (wResErr.session.responses.filter (fun x => x.round == 1)).length =
      wCfgOne.agents.length ∧
    ∃ w, wResErr.roundVotes[1 - 1]? = some w ∧ w[0]? = some false :=
  C3_agent_failure_swallowed wCfgOne wOracleErr "hello there" wResErr 1 0 "boom"
    wAgentA (by rfl) (by rfl) (by rfl) (by decide) (by decide)

/-- Claim C4: a task whose trimmed length is below the configured minimum
makes `Council.run` fail with a validation error, with a result independent
of the agent oracle (no agent is invoked, no session produced). -/
theorem C4_short_task_validation (cfg : CouncilConfig) (oracle : Oracle)
    (task : String) (hshort : (jsTrim task).length < MIN_TASK_LENGTH) :
    (∃ e, Council.run cfg oracle task = Except.error e) ∧
    ∀ oracle2 : Oracle, Council.run cfg oracle task = Council.run cfg oracle2 task := by
  constructor
  · by_cases h0 : task = ""
    · exact ⟨ValidationError.emptyTask, by simp [Council.run, h0]⟩
    · exact ⟨ValidationError.tooShort, by simp [Council.run, h0, hshort]⟩
  · intro oracle2
    by_cases h0 : task = "" <;> simp [Council.run, h0, hshort]

/-- Witness for C4 at the concrete two-character task "hi". -/
theorem C4_short_task_validation_wit :
    (∃ e, Council.run wCfgYes wOracleYes "hi" = Except.error e) ∧
    ∀ oracle2 : Oracle,
      Council.run wCfgYes wOracleYes "hi" = Council.run wCfgYes oracle2 "hi" :=
  C4_short_task_validation wCfgYes wOracleYes "hi" (by decide)

/-- Claim C5: a `max_rounds` session executed exactly `maxRounds` rounds
(the spec's configured maximum is at least 1) and no executed round had all
votes `true`. -/
theorem C5_max_rounds_exact (cfg : CouncilConfig) (oracle : Oracle)
    (task : String) (res : RunResult)
    (hrun : Council.run cfg oracle task = Except.ok res)
    (hst : res.session.status = SessionStatus.maxRounds)
    (hpos : 1 ≤ cfg.maxRounds) :
    (res.roundVotes.length : Int) = cfg.maxRounds ∧
    ∀ w ∈ res.roundVotes, w.length = cfg.agents.length ∧ ¬(∀ v ∈ w, v = true) := by
  obtain ⟨n, -, -, -, -, hvotes, -, hstat⟩ := run_ok_spec cfg oracle task res hrun
  rcases hstat with ⟨hcons, -⟩ | ⟨-, hn, hall⟩
  · rw [hst] at hcons
    exact absurd hcons (by simp)
  · constructor
    · rw [hvotes, votesLog_length oracle cfg.agents n 1, hn]
      exact Int.toNat_of_nonneg (by omega)
    · intro w hw
      rw [hvotes] at hw
      obtain ⟨i, hi, hwi⟩ := votesLog_mem oracle cfg.agents n 1 w hw
      subst hwi
      have hlen := roundVotesFrom_length oracle (1 + i) cfg.agents 0
      exact ⟨hlen, allYes_false _ _ (hall i hi) hlen⟩

def wCfgTwo : CouncilConfig :=
  { name := "demo", agents := [wAgentA], maxRounds := 2, projectDir := "." }

def wOracleNo : Oracle := fun _ _ => Except.ok "still working"

def wResNo : RunResult :=
  match Council.run wCfgTwo wOracleNo "hello there" with
  | Except.ok r => r
  | Except.error _ => default

/-- Witness for C5 at a concrete run that exhausts two rounds. -/
theorem C5_max_rounds_exact_wit :
    (wResNo.roundVotes.length : Int) = wCfgTwo.maxRounds ∧
    ∀ w ∈ wResNo.roundVotes,
      w.length = wCfgTwo.agents.length ∧ ¬(∀ v ∈ w, v = true) :=
  C5_max_rounds_exact wCfgTwo wOracleNo "hello there" wResNo (by rfl) (by rfl)
    (by decide)

/-- Claim C6: the record log of a completed session is exactly one record
per roster agent per executed round, in chronological order (rounds
ascending, roster order within a round), failures included. -/
theorem C6_log_complete_ordered (cfg : CouncilConfig) (oracle : Oracle)
    (task : String) (res : RunResult)
    (hrun : Council.run cfg oracle task = Except.ok res) :
    res.session.responses.map keyOf =
      expectedKeys cfg.agents 1 res.roundVotes.length ∧
    ∀ R, 1 ≤ R → R ≤ res.roundVotes.length →
      (res.session.responses.filter (fun x => x.round == R)).length =
        cfg.agents.length := by
  obtain ⟨n, -, -, -, hresp, hvotes, -, -⟩ := run_ok_spec cfg oracle task res hrun
  have hn : res.roundVotes.length = n := by
    rw [hvotes]; exact votesLog_length oracle cfg.agents n 1
  rw [hn, hresp]
  exact ⟨logFrom_keys oracle cfg.agents n 1,
    fun R h1 h2 => log_filter_round oracle cfg.agents n R h1 h2⟩

/-- Witness for C6 at the concrete consensus run. -/
theorem C6_log_complete_ordered_wit :
    wResYes.session.responses.map keyOf =
      expectedKeys wCfgYes.agents 1 wResYes.roundVotes.length ∧
    ∀ R, 1 ≤ R → R ≤ wResYes.roundVotes.length →
      (wResYes.session.responses.filter (fun x => x.round == R)).length =
        wCfgYes.agents.length :=
  C6_log_complete_ordered wCfgYes wOracleYes "hello there" wResYes (by rfl)

/-- Claim C7: the history window passed for round R, roster position N is
exactly all records of rounds 1..R-1 followed by round R's records at
positions before N, in log order — nothing from later positions or future
rounds. -/
theorem C7_history_window_exact (cfg : CouncilConfig) (oracle : Oracle)
    (task : String) (res : RunResult) (inv : Invocation)
    (hrun : Council.run cfg oracle task = Except.ok res)
    (hinv : inv ∈ res.invocations) :
    1 ≤ inv.round ∧ inv.agentIdx < cfg.agents.length ∧
    inv.history.map keyOf =
      expectedKeys cfg.agents 1 (inv.round - 1) ++
        (cfg.agents.take inv.agentIdx).map (fun a => (inv.round, a.name)) := by
  obtain ⟨n, -, -, -, -, -, hinvs, -⟩ := run_ok_spec cfg oracle task res hrun
  obtain ⟨i, k, a, hilt, hk, hr, hidx, hname, hh⟩ := hinvs inv hinv
  obtain ⟨hklt, -⟩ := List.getElem?_eq_some.mp hk
  refine ⟨by omega, by rw [hidx]; exact hklt, ?_⟩
  rw [hh, List.map_append, logFrom_keys, roundRecordsFrom_keys, hr, hidx]
  have e : 1 + i - 1 = i := by omega
  rw [e]

/-- Witness for C7 at the single invocation of the concrete consensus run. -/
theorem C7_history_window_exact_wit :
    1 ≤ ({ round := 1, agentIdx := 0, agentName := "A",
           history := [] } : Invocation).round ∧
    ({ round := 1, agentIdx := 0, agentName := "A",
       history := [] } : Invocation).agentIdx < wCfgYes.agents.length ∧
    ({ round := 1, agentIdx := 0, agentName := "A",
       history := [] } : Invocation).history.map keyOf =
      expectedKeys wCfgYes.agents 1
          (({ round := 1, agentIdx := 0, agentName := "A",
              history := [] } : Invocation).round - 1) ++
        (wCfgYes.agents.take
            ({ round := 1, agentIdx := 0, agentName := "A",
               history := [] } : Invocation).agentIdx).map
          (fun a => (({ round := 1, agentIdx := 0, agentName := "A",
                        history := [] } : Invocation).round, a.name)) :=
  C7_history_window_exact wCfgYes wOracleYes "hello there" wResYes
    { round := 1, agentIdx := 0, agentName := "A", history := [] }
    (by rfl) (by decide)

/-- Claim C8: a displayed history record is the marker-stripped, trimmed
text, shown in full when at most 800 characters, else its first 800
characters with "..." appended (total length 803). -/
theorem C8_preview_truncation :
    (∀ c : String, (cleanContentOf c).length ≤ 800 → previewOf c = cleanContentOf c) ∧
    (∀ c : String, 800 < (cleanContentOf c).length →
      previewOf c = String.mk ((cleanContentOf c).data.take 800) ++ "..." ∧
      (previewOf c).length = 803) ∧
    cleanContentOf " [CONSENSUS: YES] all done " = "all done" ∧
    previewOf " [CONSENSUS: YES] all done " = "all done" := by
  refine ⟨?_, ?_, by decide, by decide⟩
  · intro c h
    show (if (cleanContentOf c).length > 800
          then String.mk ((cleanContentOf c).data.take 800) ++ "..."
          else cleanContentOf c) = cleanContentOf c
    rw [if_neg (by omega)]
  · intro c h
    have hp : previewOf c = String.mk ((cleanContentOf c).data.take 800) ++ "..." := by
      show (if (cleanContentOf c).length > 800
            then String.mk ((cleanContentOf c).data.take 800) ++ "..."
            else cleanContentOf c) =
        String.mk ((cleanContentOf c).data.take 800) ++ "..."
      rw [if_pos (by omega)]
    refine ⟨hp, ?_⟩
    rw [hp, String.length_append]
    have h' : 800 ≤ (cleanContentOf c).data.length := by
      have hsame : (cleanContentOf c).length = (cleanContentOf c).data.length := rfl
      omega
    have hlen : (String.mk ((cleanContentOf c).data.take 800)).length = 800 := by
      show ((cleanContentOf c).data.take 800).length = 800
      rw [List.length_take]
      omega
    rw [hlen]
    rfl

/-- Witness for C8: a short text is shown in full. -/
theorem C8_preview_truncation_wit :
    previewOf "short text" = cleanContentOf "short text" :=
  C8_preview_truncation.1 "short text" (by decide)

/-- Claim C9: with a non-positive `maxRounds` the loop body never runs: no
invocation is made, no responses or votes are recorded, and the session
ends as `max_rounds`. -/
theorem C9_nonpositive_rounds (cfg : CouncilConfig) (oracle : Oracle)
    (task : String) (res : RunResult)
    (hrun : Council.run cfg oracle task = Except.ok res)
    (hmax : cfg.maxRounds ≤ 0) :
    res.session.status = SessionStatus.maxRounds ∧
    res.session.responses = [] ∧ res.roundVotes = [] ∧ res.invocations = [] := by
  have htn : cfg.maxRounds.toNat = 0 := Int.toNat_of_nonpos hmax
  obtain ⟨n, hle, -, -, hresp, hvotes, hinvs, hstat⟩ := run_ok_spec cfg oracle task res hrun
  have hn0 : n = 0 := by omega
  subst hn0
  refine ⟨?_, by simpa [logFrom] using hresp, by simpa [votesLog] using hvotes, ?_⟩
  · rcases hstat with ⟨-, m, hm, -, -⟩ | ⟨h, -, -⟩
    · exact absurd hm (by omega)
    · exact h
  · cases hi : res.invocations with
    | nil => rfl
    | cons x xs =>
      obtain ⟨i, k, a, hilt, -⟩ := hinvs x (by rw [hi]; exact List.mem_cons_self x xs)
      exact absurd hilt (by omega)

def wCfgZero : CouncilConfig :=
  { name := "demo", agents := [wAgentA], maxRounds := 0, projectDir := "." }

def wResZero : RunResult :=
  match Council.run wCfgZero wOracleErr "hello there" with
  | Except.ok r => r
  | Except.error _ => default

/-- Witness for C9 at a concrete zero-round configuration. -/
theorem C9_nonpositive_rounds_wit :
    wResZero.session.status = SessionStatus.maxRounds ∧
    wResZero.session.responses = [] ∧ wResZero.roundVotes = [] ∧
    wResZero.invocations = [] :=
  C9_nonpositive_rounds wCfgZero wOracleErr "hello there" wResZero (by rfl)
    (by decide)

/-- Claim C10: the accepted marker shape allows any amount of whitespace
(including none) between the colon and the token, strictly wider than the
literal forms, and the exact same pattern is stripped by the history and
summary preview builders. -/
theorem C10_widened_marker :
    parseConsensus "[CONSENSUS:YES]" = true ∧
    parseConsensus "[CONSENSUS:   yes]" = true ∧
    parseConsensus "[CONSENSUS:NO]" = false ∧
    containsSub "[CONSENSUS:YES]".data "[CONSENSUS: YES]".data = false ∧
    containsSub "[CONSENSUS:   yes]".data "[CONSENSUS: YES]".data = false ∧
    containsSub "[CONSENSUS:   yes]".data "[CONSENSUS: NO]".data = false ∧
    cleanContentOf "keep [CONSENSUS:YES] this" = "keep  this" ∧
    cleanContentOf "keep [CONSENSUS:   yes] this" = "keep  this" ∧
    summaryPreviewOf "done [CONSENSUS:   no]" = "done" := by
  decide

end ThreeMinds






